import Mathlib

/-!
Verification of the bgen17 command-line tools (bgenix, cat-bgen, edit-bgen)
against their specification.

The development shallowly embeds the byte-level operations of the three
applications.  Files are modelled as lists of natural numbers (one per byte),
and the container-header codec of the shared bgen library (whose sources are
not part of the apps) is modelled from the specification's bit-exact wire
format (spec section 4.3 and section 6).
-/

/-! ## Little-endian primitives (spec section 4.1) -/

/-- Little-endian serialisation of a 32-bit unsigned integer, least
significant byte first. -/
def writeU32 (v : Nat) : List Nat :=
  [v % 256, v / 256 % 256, v / 65536 % 256, v / 16777216 % 256]

/-- Little-endian read of a 32-bit unsigned integer from byte position `pos`;
`none` models a `TruncatedInput` failure. -/
def readU32 (l : List Nat) (pos : Nat) : Option Nat :=
  match l.drop pos with
  | b0 :: b1 :: b2 :: b3 :: _ => some (b0 + 256 * b1 + 65536 * b2 + 16777216 * b3)
  | _ => none

/-- Contiguous byte range `[start, start+len)` of a file. -/
def sliceBytes (l : List Nat) (start len : Nat) : List Nat :=
  (l.drop start).take len

/-! ## Header codec (modelled from the spec, sections 4.3 and 6) -/

/-- Flag-word constant: zlib compression of probability payloads (bits 0-1). -/
def e_ZlibCompression : Nat := 1

/-- Flag-word constant: mask of the layout field (bits 2-5). -/
def e_Layout : Nat := 0x3C

/-- Flag-word constant: layout 1. -/
def e_Layout1 : Nat := 0x4

/-- Flag-word constant: layout 2. -/
def e_Layout2 : Nat := 0x8

/-- Flag-word constant: the sample-identifier bit (bit 31). -/
def e_SampleIdentifiers : Nat := 0x80000000

/-- Modelled from the spec: the header descriptor `genfile::bgen::Context`
(spec section 3); the library source carrying it is not under `src/`.
The magic bytes are kept so that decode/encode is lossless. -/
structure Context where
  number_of_variants : Nat
  number_of_samples : Nat
  magic : List Nat
  free_data : List Nat
  flags : Nat
deriving Repr, DecidableEq

/-- Header size in bytes: 20 fixed bytes plus the free-data blob. -/
def Context.header_size (c : Context) : Nat :=
  20 + c.free_data.length

/-- The four magic bytes spelling out bgen. -/
def bgenMagic : List Nat := [98, 103, 101, 110]

/-- A header's magic field must spell bgen or be all zero (spec section 4.3). -/
def magicOk (m : List Nat) : Bool :=
  m == bgenMagic || m == [0, 0, 0, 0]

/-- The layout field of the flag word must name layout 1 or layout 2;
anything else is an `UnsupportedLayout` failure (spec section 4.3). -/
def layoutOk (flags : Nat) : Bool :=
  (flags &&& e_Layout) == e_Layout1 || (flags &&& e_Layout) == e_Layout2

/-- Modelled from the spec: `read_header_block` (spec section 4.3), decoding
the fixed 20-byte header plus free data found at byte `pos` of the file;
`none` models the `TruncatedInput` / bad-magic / `UnsupportedLayout`
failures. -/
def read_header_block (l : List Nat) (pos : Nat) : Option Context :=
  match readU32 l pos, readU32 l (pos + 4), readU32 l (pos + 8) with
  | some header_size, some number_of_variants, some number_of_samples =>
    if 20 ≤ header_size ∧ pos + header_size ≤ l.length then
      match readU32 l (pos + header_size - 4) with
      | some flags =>
        if magicOk (sliceBytes l (pos + 12) 4)
            ∧ layoutOk flags then
          some ⟨number_of_variants, number_of_samples,
            sliceBytes l (pos + 12) 4, sliceBytes l (pos + 16) (header_size - 20), flags⟩
        else none
      | none => none
    else none
  | _, _, _ => none

/-- Modelled from the spec: `write_header_block` (spec section 4.3), the exact
wire image of a header. -/
def write_header_block (c : Context) : List Nat :=
  writeU32 c.header_size ++ writeU32 c.number_of_variants
    ++ writeU32 c.number_of_samples ++ c.magic ++ c.free_data ++ writeU32 c.flags

/-- Well-formedness of a header descriptor: fields fit their wire widths and
pass the decoder's checks, so that encode-then-decode is the identity. -/
def Context.WF (c : Context) : Prop :=
  c.number_of_variants < 2 ^ 32 ∧ c.number_of_samples < 2 ^ 32 ∧
  c.flags < 2 ^ 32 ∧ c.header_size < 2 ^ 32 ∧
  c.magic.length = 4 ∧ magicOk c.magic = true ∧ layoutOk c.flags = true

/-- Header well-formedness is a conjunction of decidable facts. -/
instance (c : Context) : Decidable c.WF := by
  unfold Context.WF
  infer_instance

/-! ## The layout-2 to layout-1 probability table (bgenix.cpp,
`compute_bgen_v11_probability_encoding_table`) -/

/-- Integer value of `std::round((double(x)/255.0)*32768.0)` for `0 ≤ x ≤ 255`:
the exact quotient `x*32768/255 = x*65536/510` is never a half-integer — its
distance from the nearest half-integer is at least `1/510`, far above the
error of the double computation (below `2^-38`) — so rounding the double
equals rounding the exact rational, which is this floor of `value + 1/2`. -/
def roundProb (x : Nat) : Nat := (x * 65536 + 255) / 510

/-- Iteration space of the two nested loops that build the table: `x` runs
from 0 to 255 and, for each `x`, `y` runs from 0 to `255 - x`. -/
def v11EncodingPairs : List (Nat × Nat) :=
  (List.range 256).flatMap (fun x => (List.range (256 - x)).map (fun y => (x, y)))

/-- Table key of a pair `(x, y)`: `(y << 8) | x`, the two raw probability
bytes of one sample read as a little-endian 16-bit value. -/
def v11Key (p : Nat × Nat) : Nat := (p.2 <<< 8) ||| p.1

/-- Packed 48-bit table value `a | (b << 16) | (c << 32)` for the pair
`(x, y)`, where `z = 255 - x - y` (bgenix.cpp). -/
def v11PackedValue (x y : Nat) : Nat :=
  roundProb x ||| (roundProb y <<< 16) ||| (roundProb (255 - x - y) <<< 32)

/-- The probability-encoding table of the layout-2 to layout-1 transcoder
(bgenix.cpp): a vector of 65536 zero-initialised entries, with the entry at
key `(y<<8)|x` assigned for every pair with `x + y ≤ 255`. -/
def compute_bgen_v11_probability_encoding_table : List Nat :=
  v11EncodingPairs.foldl
    (fun result p => result.set (v11Key p) (v11PackedValue p.1 p.2))
    (List.replicate 65536 0)

/-! ## The -v11 transcoder (bgenix.cpp,
`process_selection_transcode_bgen_v11`) -/

/-- Failure kind of the -v11 transcoder: every per-variant check throws
`std::invalid_argument`, the `UnsupportedTranscode` kind of the spec. -/
inductive TranscodeError where
  | unsupportedTranscode
deriving Repr, DecidableEq

/-- Modelled from the spec: the fast-path view of a decompressed layout-2
probability block (`genfile::bgen::v12::GenotypeDataBlock`, spec section 4.5);
the library source carrying it is not under `src/`.  `ploidy` holds one byte
per sample (low six bits the ploidy, high bit the missingness flag), and
`buffer` the packed probability bytes that follow those per-sample bytes;
`ploidyExtent` is the (min, max) ploidy pair of the block's preamble. -/
structure GenotypeDataBlock where
  numberOfSamples : Nat
  numberOfAlleles : Nat
  ploidyExtent : Nat × Nat
  ploidy : List Nat
  phased : Nat
  bits : Nat
  buffer : List Nat
deriving Repr, DecidableEq

/-- Per-sample serialisation loop of the -v11 transcoder (bgenix.cpp): a
missing sample (high ploidy bit set) contributes six zero bytes; any other
sample contributes the six low-order bytes of the table entry keyed by its
two raw probability bytes.  The buffer pointer advances two bytes per sample
in both cases. -/
def v11SerialiseSamples : List Nat → List Nat → List Nat
  | [], _ => []
  | p :: rest, buffer =>
    (if p &&& 0x80 ≠ 0 then [0, 0, 0, 0, 0, 0]
     else
       let value := compute_bgen_v11_probability_encoding_table.getD
         (buffer.getD 0 0 + 256 * buffer.getD 1 0) 0
       [(value >>> 0) &&& 0xFF, (value >>> 8) &&& 0xFF, (value >>> 16) &&& 0xFF,
        (value >>> 24) &&& 0xFF, (value >>> 32) &&& 0xFF, (value >>> 40) &&& 0xFF])
      ++ v11SerialiseSamples rest (buffer.drop 2)

/-- Per-variant processing of `process_selection_transcode_bgen_v11`
(bgenix.cpp), given the already-read identifying data and unpacked genotype
block: the source's per-variant checks in source order — allele count first
(before the identifying block is serialised), then bits-per-probability,
phasedness, and the buffer-extent check `pack.end < pack.buffer +
context.number_of_samples`.  Output bytes for the variant are produced only
after every check passes, so an error also means no output for the variant. -/
def transcode_v11_variant (ctx : Context) (alleles : List String)
    (pack : GenotypeDataBlock) : Except TranscodeError (List Nat) :=
  if alleles.length ≠ 2 then .error .unsupportedTranscode
  else if pack.bits ≠ 8 then .error .unsupportedTranscode
  else if pack.phased ≠ 0 then .error .unsupportedTranscode
  else if pack.buffer.length < ctx.number_of_samples then .error .unsupportedTranscode
  else .ok (v11SerialiseSamples pack.ploidy pack.buffer)

/-- Header emission of the -v11 transcoder (bgenix.cpp): reject any input
that is not layout 2, then write the leading offset word — equal to the
output header's size — followed by the header whose flag word is exactly
layout 1 with zlib compression. -/
def process_selection_transcode_bgen_v11_header (ctx : Context) :
    Except TranscodeError (List Nat) :=
  if ctx.flags &&& e_Layout ≠ e_Layout2 then .error .unsupportedTranscode
  else
    let outputContext : Context := { ctx with flags := e_Layout1 ||| e_ZlibCompression }
    .ok (writeU32 outputContext.header_size ++ write_header_block outputContext)

/-- Concrete context used by the claim-one counterexample: layout 2, zlib
compression, one sample, one variant, no free data. -/
def ctxC1 : Context := ⟨1, 1, bgenMagic, [], 9⟩

/-- Concrete biallelic allele list used by the claim-one counterexample. -/
def allelesC1 : List String := ["A", "G"]

/-- Concrete unpacked genotype block used by the claim-one counterexample:
8 bits per probability, unphased, but haploid (ploidy byte 1, min and max
ploidy 1) — not diploid. -/
def packC1 : GenotypeDataBlock := ⟨1, 2, (1, 1), [1], 0, 8, [10, 20]⟩

/-- Concrete layout-2 context whose sample-identifier bit is set, used by the
claim-ten witness: flags are layout two with zlib compression plus bit 31. -/
def ctxC10 : Context := ⟨3, 5, bgenMagic, [7], 2147483657⟩

/-! ## Index metadata check (bgenix.cpp, `check_metadata`) -/

/-- File fingerprint captured by a View and recorded in the index
(`genfile::bgen::IndexQuery::FileMetadata`, spec section 3). -/
structure FileMetadata where
  filename : String
  size : Nat
  last_write_time : Int
  first_bytes : List Nat
deriving Repr, DecidableEq

/-- Failure kinds of `check_metadata`, both of the spec's `IndexStale`
kind (`std::invalid_argument` with a rebuild suggestion in the source). -/
inductive MetadataError where
  | sizeMismatch
  | firstBytesMismatch
deriving Repr, DecidableEq

/-- The `check_metadata` comparison (bgenix.cpp): when the index records a
fingerprint, a size mismatch raises first, then a first-bytes mismatch; the
recorded `last_write_time` is never inspected.  With no recorded fingerprint
nothing is checked. -/
def check_metadata (file : FileMetadata) (index : Option FileMetadata) :
    Except MetadataError Unit :=
  match index with
  | none => .ok ()
  | some idx =>
    if file.size ≠ idx.size then .error .sizeMismatch
    else if file.first_bytes ≠ idx.first_bytes then .error .firstBytesMismatch
    else .ok ()

/-! ## Index build discipline (bgenix.cpp, `create_bgen_index_unsafe`) -/

/-- Minimal filesystem state for the index build: the collection of existing
file names. -/
structure FileSys where
  files : List String
deriving Repr, DecidableEq

/-- Whether a file with the given name exists. -/
def FileSys.hasFile (fs : FileSys) (n : String) : Bool := fs.files.contains n

/-- Create (open for writing) a file with the given name. -/
def FileSys.create (fs : FileSys) (n : String) : FileSys := ⟨n :: fs.files⟩

/-- Delete every file with the given name (`boost::filesystem::remove`). -/
def FileSys.removeFile (fs : FileSys) (n : String) : FileSys :=
  ⟨fs.files.filter (fun m => m != n)⟩

/-- Rename a file (`boost::filesystem::rename`), replacing any file already
carrying the target name. -/
def FileSys.renameFile (fs : FileSys) (src dst : String) : FileSys :=
  ((fs.removeFile dst).removeFile src).create dst

/-- Failure kinds of the index build: the `IndexExists` refusal for a
pre-existing temporary, and any failure of the direct build (streaming or
SQL), which the source re-raises after deleting the temporary. -/
inductive IndexBuildError where
  | indexExists
  | buildFailed
deriving Repr, DecidableEq

/-- Filesystem effects of `create_bgen_index_unsafe` (bgenix.cpp): refuse to
touch anything when `<index>.tmp` exists and -clobber was not given;
otherwise the direct build creates and writes only the temporary file
(`buildSucceeds` abstracts whether its streaming and SQL steps succeed, the
connection being opened on the temporary name only), after which the
temporary is renamed onto the final name on success, or deleted — with the
error re-raised — on any failure. -/
def create_bgen_index_unsafe (fs : FileSys) (index_filename : String)
    (clobber buildSucceeds : Bool) : Except (IndexBuildError × FileSys) FileSys :=
  if fs.hasFile (index_filename ++ ".tmp") && !clobber then
    .error (.indexExists, fs)
  else
    let fs1 := fs.create (index_filename ++ ".tmp")
    if buildSucceeds then
      .ok (fs1.renameFile (index_filename ++ ".tmp") index_filename)
    else
      .error (.buildFailed, fs1.removeFile (index_filename ++ ".tmp"))

/-- Post-condition of a successful index build on filesystem `fs`: the final
index exists, the temporary is gone, and no other name was touched. -/
def IndexBuildSuccessPost (fs : FileSys) (idx : String) (clobber : Bool) : Prop :=
  ∃ fs₂ : FileSys,
    create_bgen_index_unsafe fs idx clobber true = Except.ok fs₂
    ∧ fs₂.hasFile idx = true
    ∧ fs₂.hasFile (idx ++ ".tmp") = false
    ∧ ∀ n : String, n ≠ idx → n ≠ idx ++ ".tmp" → fs₂.hasFile n = fs.hasFile n

/-- Post-condition of a failed index build on filesystem `fs`: the build
fails, the temporary has been deleted, the final index was not created (its
existence is as before), and no other name was touched. -/
def IndexBuildFailurePost (fs : FileSys) (idx : String) (clobber : Bool) : Prop :=
  ∃ fs₂ : FileSys,
    create_bgen_index_unsafe fs idx clobber false
        = Except.error (IndexBuildError.buildFailed, fs₂)
    ∧ fs₂.hasFile (idx ++ ".tmp") = false
    ∧ fs₂.hasFile idx = fs.hasFile idx
    ∧ ∀ n : String, n ≠ idx → n ≠ idx ++ ".tmp" → fs₂.hasFile n = fs.hasFile n

/-! ## Index rows (bgenix.cpp, `create_bgen_index_direct`) -/

/-- One variant of the input stream as the indexing loop observes it: the
identifying tuple plus the byte length of its identifying block (which
`read_variant` advances past) and of its probability block (which
`ignore_genotype_data_block` advances past); the View cursor semantics are
modelled from spec section 4.6, the View source being outside `src/`. -/
structure VariantRecord where
  SNPID : String
  rsid : String
  chromosome : String
  position : Nat
  alleles : List String
  idLength : Nat
  probLength : Nat
deriving Repr, DecidableEq

/-- One row of the index's `Variant` table, as the insert statement binds
it (bgenix.cpp). -/
structure VariantRow where
  chromosome : String
  position : Nat
  rsid : String
  number_of_alleles : Nat
  allele1 : String
  allele2 : String
  file_start_position : Nat
  size_in_bytes : Nat
deriving Repr, DecidableEq

/-- Rows inserted by the indexing loop of `create_bgen_index_direct`
(bgenix.cpp): `file_pos` starts at the cursor position before the first
variant; each iteration reads one variant's identifying block, skips its
probability block, binds a row whose `file_start_position` is `file_pos`
and whose `size_in_bytes` is the distance the cursor moved, and continues
from the new position. -/
def rowOf (file_pos : Nat) (v : VariantRecord) : VariantRow :=
  { chromosome := v.chromosome, position := v.position, rsid := v.rsid,
    number_of_alleles := v.alleles.length,
    allele1 := v.alleles.getD 0 (""), allele2 := v.alleles.getD 1 (""),
    file_start_position := file_pos,
    size_in_bytes := v.idLength + v.probLength }

/-- Row list produced by the indexing loop: one row per variant, each bound
from the cursor position before the variant and the distance the cursor
moves while consuming it. -/
def buildIndexRows (file_pos : Nat) : List VariantRecord → List VariantRow
  | [] => []
  | v :: rest =>
    rowOf file_pos v :: buildIndexRows (file_pos + (v.idLength + v.probLength)) rest

/-- Total byte length of a list of variant records. -/
def variantsLength (vs : List VariantRecord) : Nat :=
  (vs.map (fun v => v.idLength + v.probLength)).sum

/-- Concrete variant list for the claim-seven witness. -/
def vsC7 : List VariantRecord :=
  [⟨("SNP1"), ("rs1"), ("01"), 100, [("A"), ("G")], 30, 50⟩,
   ⟨("SNP2"), ("rs2"), ("01"), 200, [("A"), ("C"), ("T")], 31, 60⟩]

/-- Row the index build derives from the first record of `vsC7` when the
variant stream starts at byte 24. -/
def rowC7a : VariantRow := ⟨("01"), 100, ("rs1"), 2, ("A"), ("G"), 24, 80⟩

/-- Row the index build derives from the second record of `vsC7`. -/
def rowC7b : VariantRow := ⟨("01"), 200, ("rs2"), 3, ("A"), ("C"), 104, 91⟩

/-! ## No-transcode output (bgenix.cpp, `process_selection_notranscode`) -/

/-- The no-transcode output path (bgenix.cpp): read the offset word and the
header, overwrite the header's variant count with the plan's size, emit the
original offset word and the adjusted header, copy the bytes lying between
the header's end and the variant data's start (the sample-identifier block),
then for each plan entry in order seek to its `file_start` and copy exactly
`length` bytes. -/
def process_selection_notranscode (file : List Nat) (plan : List (Nat × Nat)) :
    Option (List Nat) :=
  match readU32 file 0, read_header_block file 4 with
  | some offset, some context =>
    some (writeU32 offset
      ++ (write_header_block { context with number_of_variants := plan.length }
      ++ (sliceBytes file (4 + context.header_size) (offset - context.header_size)
      ++ plan.flatMap (fun r => sliceBytes file r.1 r.2))))
  | _, _ => none

/-- A plan tiles the byte range `[start, stop)`: its entries are consecutive,
the first starting at `start` and the last ending at `stop`. -/
def PlanTiles (start stop : Nat) : List (Nat × Nat) → Prop
  | [] => start = stop
  | r :: rest => r.1 = start ∧ PlanTiles (start + r.2) stop rest

/-- Tiling of a byte range by a plan is decidable. -/
def decPlanTiles : (plan : List (Nat × Nat)) → (start stop : Nat) →
    Decidable (PlanTiles start stop plan)
  | [], start, stop => decidable_of_iff (start = stop) Iff.rfl
  | r :: rest, start, stop =>
    haveI := decPlanTiles rest (start + r.2) stop
    decidable_of_iff (r.1 = start ∧ PlanTiles (start + r.2) stop rest) Iff.rfl

instance (start stop : Nat) (plan : List (Nat × Nat)) :
    Decidable (PlanTiles start stop plan) :=
  decPlanTiles plan start stop

/-- Concrete context for the claim-four witness: no declared variants, three
samples, layout 2, empty free data. -/
def ctxC4 : Context := ⟨0, 3, bgenMagic, [], 8⟩

/-- Concrete plan for the claim-four witness: one entry covering the whole
three-byte variant stream. -/
def planC4 : List (Nat × Nat) := [(24, 3)]

/-- Concrete 27-byte file for the claim-four witness: offset word 20, the
20-byte header of `ctxC4`, no sample-identifier block, three data bytes. -/
def fileC4 : List Nat :=
  writeU32 20 ++ (write_header_block ctxC4 ++ ([] ++ [1, 2, 3]))

/-! ## Range parsing (bgenix.cpp, `parse_range`) -/

/-- A genomic range as the query planner consumes it: a chromosome label and
a closed position interval, both bounds held as C++ `int`s by the source
(`genfile::bgen::IndexQuery::GenomicRange`). -/
structure GenomicRange where
  chromosome : List Char
  start : Int
  stop : Int
deriving Repr, DecidableEq

/-- Failure kinds of `parse_range`: a malformed specification, a `std::stoi`
exception, or one of the source's asserts firing. -/
inductive RangeParseError where
  | badSpec
  | stoiFailure
  | assertFailure
deriving Repr, DecidableEq

/-- Index of the first occurrence of a character, as `std::string::find`. -/
def find_char (c : Char) : List Char → Option Nat
  | [] => none
  | x :: xs => if x = c then some 0 else (find_char c xs).map (· + 1)

/-- Numeric value of a decimal digit string. -/
def digitsVal (ds : List Char) : Nat :=
  ds.foldl (fun a c => a * 10 + (c.toNat - 48)) 0

/-- Model of `std::stoi` on the argument forms `parse_range` passes to it:
an optional sign followed by decimal digits (the relevant inputs carry no
leading whitespace); it fails when no digit is present
(`std::invalid_argument`) or when the value falls outside the 32-bit `int`
range (`std::out_of_range`). -/
def stoi (s : List Char) : Except RangeParseError Int :=
  let neg : Bool := decide (s.head? = some ('-'))
  let body : List Char :=
    if s.head? = some ('-') ∨ s.head? = some ('+') then s.tail else s
  let ds := body.takeWhile (fun c => c.isDigit)
  if ds.isEmpty then Except.error RangeParseError.stoiFailure
  else
    let sv : Int := if neg then -(digitsVal ds : Int) else (digitsVal ds : Int)
    if sv < -2147483648 ∨ 2147483647 < sv then Except.error RangeParseError.stoiFailure
    else Except.ok sv

/-- The `-incl-range` / `-excl-range` argument parser (bgenix.cpp,
`parse_range`): split at the first colon into chromosome and rest, find the
first dash of the rest, parse the two flanking positions — an omitted lower
position yields 0 and an omitted upper position yields
`std::numeric_limits<int>::max() = 2147483647` — then assert
`0 ≤ pos1 ≤ pos2`. -/
def parse_range (spec : List Char) : Except RangeParseError GenomicRange :=
  match find_char (':') spec with
  | none => Except.error RangeParseError.badSpec
  | some colon_pos =>
    let chromosome := spec.take colon_pos
    let rest := spec.drop (colon_pos + 1)
    match find_char ('-') rest with
    | none => Except.error RangeParseError.badSpec
    | some separator_pos =>
      match (if separator_pos = 0 then Except.ok 0 else stoi (rest.take separator_pos)),
          (if separator_pos = rest.length - 1 then Except.ok (2147483647 : Int)
            else stoi (rest.drop (separator_pos + 1))) with
      | Except.ok pos1, Except.ok pos2 =>
        if 0 ≤ pos1 ∧ pos1 ≤ pos2 then Except.ok ⟨chromosome, pos1, pos2⟩
        else Except.error RangeParseError.assertFailure
      | Except.error e, _ => Except.error e
      | _, Except.error e => Except.error e

/-- Modelled from the spec: whether a closed-range predicate matches a
variant's chromosome and u32 position (spec sections 4.7 and 4.8: closed
interval on the same chromosome); the planner source is not under `src/`. -/
def rangeMatches (r : GenomicRange) (chr : List Char) (position : Nat) : Bool :=
  chr == r.chromosome && decide (r.start ≤ (position : Int))
    && decide ((position : Int) ≤ r.stop)

/-- Range produced by `parse_range` for the counterexample argument
`01:100-`. -/
def rangeC6 : GenomicRange := ⟨[('0'), ('1')], 100, 2147483647⟩

/-! ## Free-data editing (edit-bgen.cpp, `edit_free_data`) -/

/-- Outcome of one `edit_free_data` run on one file. -/
inductive EditStatus where
  | badFile
  | sizeMismatch
  | dryRun
  | applied
deriving Repr, DecidableEq

/-- The per-file `edit_free_data` action (edit-bgen.cpp): re-read the header
from byte 4, require the new value's length to equal the existing free-data
field's length — otherwise throw with the file untouched — and, only when
-really was given, seek to byte 20 (where free data always starts) and
overwrite exactly that many bytes in place; without -really nothing is
written.  The returned list is the file's content afterwards. -/
def edit_free_data (file : List Nat) (free_data : List Nat) (really : Bool) :
    List Nat × EditStatus :=
  match read_header_block file 4 with
  | none => (file, EditStatus.badFile)
  | some context =>
    if context.free_data.length ≠ free_data.length then (file, EditStatus.sizeMismatch)
    else if really then
      (file.take 20 ++ (free_data ++ file.drop (20 + free_data.length)),
        EditStatus.applied)
    else (file, EditStatus.dryRun)

/-- Concrete context for the claim-nine witness: one-byte free data. -/
def ctxC9 : Context := ⟨1, 2, bgenMagic, [9], 8⟩

/-- Concrete file for the claim-nine witness: offset word 21, the header of
`ctxC9`, then two trailing bytes. -/
def fileC9 : List Nat := writeU32 21 ++ (write_header_block ctxC9 ++ [5, 6])

/-! ## Concatenation (cat-bgen, `concatenate`) -/

/-- Failure kinds of `concatenate`: no input file, an unreadable header, or
a subsequent file whose sample count or flag word differs from the first
file's. -/
inductive CatError where
  | noInput
  | badFile
  | sampleMismatch
  | flagMismatch
deriving Repr, DecidableEq

/-- Final header rewrite of `concatenate` (cat-bgen): seek to byte 4 of the
output and write the accumulated header block in place. -/
def patchHeaderAt4 (out : List Nat) (c : Context) : List Nat :=
  out.take 4 ++ (write_header_block c ++ out.drop (4 + c.header_size))

/-- Loop of `concatenate` over the files after the first (cat-bgen): read
each file's offset word and header; halt — leaving the output exactly as
already written — unless its sample count and flag word equal the first
file's; otherwise seek to `offset + 4`, stream the remainder, and accumulate
its variant count; after the last file seek back to byte 4 and rewrite the
header with the summed count. -/
def concatLoop (resultContext : Context) (out : List Nat) :
    List (List Nat) → Except (CatError × List Nat) (List Nat)
  | [] => Except.ok (patchHeaderAt4 out resultContext)
  | f :: rest =>
    match readU32 f 0, read_header_block f 4 with
    | some offset, some context =>
      if context.number_of_samples ≠ resultContext.number_of_samples then
        Except.error (CatError.sampleMismatch, out)
      else if context.flags ≠ resultContext.flags then
        Except.error (CatError.flagMismatch, out)
      else
        concatLoop { resultContext with number_of_variants :=
            resultContext.number_of_variants + context.number_of_variants }
          (out ++ f.drop (offset + 4)) rest
    | _, _ => Except.error (CatError.badFile, out)

/-- `concatenate` (cat-bgen) with neither -omit-sample-identifier-block nor
-set-free-data: emit the first file's offset word and header from the parsed
values followed by everything after its header, then run the loop over the
remaining files.  An error carries the output as written up to the halt. -/
def concatenate (files : List (List Nat)) :
    Except (CatError × List Nat) (List Nat) :=
  match files with
  | [] => Except.error (CatError.noInput, [])
  | f0 :: rest =>
    match readU32 f0 0, read_header_block f0 4 with
    | some offset, some resultContext =>
      concatLoop resultContext
        (writeU32 offset ++ (write_header_block resultContext
          ++ f0.drop (4 + resultContext.header_size))) rest
    | _, _ => Except.error (CatError.badFile, [])

/-- Generator of a well-formed input file for `concatenate`: offset word,
header, sample-identifier region, variant data. -/
structure CatInput where
  offset : Nat
  context : Context
  middle : List Nat
  data : List Nat
deriving Repr, DecidableEq

/-- The byte content of a generated input file. -/
def CatInput.file (g : CatInput) : List Nat :=
  writeU32 g.offset ++ (write_header_block g.context ++ (g.middle ++ g.data))

/-- Well-formedness of a generated input: valid header fields and an offset
word pointing exactly at the variant data. -/
def CatInput.WF (g : CatInput) : Prop :=
  g.context.WF ∧ g.offset = g.context.header_size + g.middle.length
    ∧ g.offset < 2 ^ 32

instance (g : CatInput) : Decidable g.WF := by
  unfold CatInput.WF
  infer_instance

/-- First concrete input for the claim-eight witness: two variants, three
samples, layout 2, two data bytes. -/
def gC8a : CatInput := ⟨20, ⟨2, 3, bgenMagic, [], 8⟩, [], [1, 2]⟩

/-- Second concrete input for the claim-eight witness: same sample count and
flags as the first, three data bytes. -/
def gC8b : CatInput := ⟨20, ⟨2, 3, bgenMagic, [], 8⟩, [], [7, 8, 9]⟩

/-- Mismatching concrete input for the claim-eight witness: four samples
instead of three. -/
def gC8bad : CatInput := ⟨20, ⟨2, 4, bgenMagic, [], 8⟩, [], [7]⟩

/-! # Theorems -/

theorem readU32_append (xs l : List Nat) (k : Nat) :
    readU32 (xs ++ l) (xs.length + k) = readU32 l k := by
  unfold readU32
  rw [List.drop_append]

theorem readU32_writeU32 (v : Nat) (hv : v < 2 ^ 32) (rest : List Nat) :
    readU32 (writeU32 v ++ rest) 0 = some v := by
  unfold readU32 writeU32
  simp only [List.drop_zero, List.cons_append, List.nil_append]
  congr 1
  omega

theorem readU32_app4 (v : Nat) (l : List Nat) (k : Nat) :
    readU32 (writeU32 v ++ l) (4 + k) = readU32 l k :=
  readU32_append (writeU32 v) l k

theorem sliceBytes_append (xs l : List Nat) (s len : Nat) :
    sliceBytes (xs ++ l) (xs.length + s) len = sliceBytes l s len := by
  unfold sliceBytes
  rw [List.drop_append]

theorem sliceBytes_app4 (v : Nat) (l : List Nat) (s len : Nat) :
    sliceBytes (writeU32 v ++ l) (4 + s) len = sliceBytes l s len :=
  sliceBytes_append (writeU32 v) l s len

theorem sliceBytes_self (xs l : List Nat) :
    sliceBytes (xs ++ l) 0 xs.length = xs := by
  unfold sliceBytes
  simp

theorem write_header_block_length (c : Context) (hm : c.magic.length = 4) :
    (write_header_block c).length = c.header_size := by
  simp [write_header_block, Context.header_size, writeU32, hm]
  omega

theorem read_header_block_gen (c : Context) (hwf : c.WF) (xs rest : List Nat) :
    read_header_block (xs ++ (write_header_block c ++ rest)) xs.length = some c := by
  obtain ⟨hnv, hns, hfl, hhs, hm, hmok, hlok⟩ := hwf
  obtain ⟨nv, ns, magic, fd, flags⟩ := c
  simp only [Context.header_size] at hhs
  simp only at hnv hns hfl hm hmok hlok
  have hassoc : write_header_block ⟨nv, ns, magic, fd, flags⟩ ++ rest
      = writeU32 (20 + fd.length) ++ (writeU32 nv ++ (writeU32 ns
        ++ (magic ++ (fd ++ (writeU32 flags ++ rest))))) := by
    simp [write_header_block, Context.header_size, List.append_assoc]
  set L := xs ++ (write_header_block ⟨nv, ns, magic, fd, flags⟩ ++ rest) with hL
  have h0 : readU32 L xs.length = some (20 + fd.length) := by
    have := readU32_append xs (write_header_block ⟨nv, ns, magic, fd, flags⟩ ++ rest) 0
    rw [Nat.add_zero] at this
    rw [hL, this, hassoc]
    exact readU32_writeU32 _ hhs _
  have h4 : readU32 L (xs.length + 4) = some nv := by
    rw [hL, readU32_append, hassoc]
    exact (readU32_app4 _ _ 0).trans (readU32_writeU32 _ hnv _)
  have h8 : readU32 L (xs.length + 8) = some ns := by
    rw [hL, readU32_append, hassoc]
    exact ((readU32_app4 _ _ 4).trans (readU32_app4 _ _ 0)).trans
      (readU32_writeU32 _ hns _)
  have hmagic : sliceBytes L (xs.length + 12) 4 = magic := by
    rw [hL, sliceBytes_append, hassoc]
    rw [show (12 : Nat) = 4 + (4 + (4 + 0)) from rfl]
    rw [sliceBytes_app4, sliceBytes_app4, sliceBytes_app4]
    rw [show (4 : Nat) = magic.length from hm.symm]
    exact sliceBytes_self magic _
  have hfd : sliceBytes L (xs.length + 16) (20 + fd.length - 20) = fd := by
    rw [hL, sliceBytes_append, hassoc]
    rw [show (16 : Nat) = 4 + (4 + (4 + (magic.length + 0))) by rw [hm]]
    rw [sliceBytes_app4, sliceBytes_app4, sliceBytes_app4, sliceBytes_append]
    rw [show 20 + fd.length - 20 = fd.length by omega]
    exact sliceBytes_self fd _
  have hflags : readU32 L (xs.length + (20 + fd.length) - 4) = some flags := by
    rw [show xs.length + (20 + fd.length) - 4
        = xs.length + (4 + (4 + (4 + (magic.length + (fd.length + 0))))) by
      rw [hm]; omega]
    rw [hL, readU32_append, hassoc]
    rw [readU32_app4, readU32_app4, readU32_app4, readU32_append, readU32_append]
    exact readU32_writeU32 _ hfl _
  have hlen : xs.length + (20 + fd.length) ≤ L.length := by
    rw [hL]
    simp [write_header_block, Context.header_size, writeU32, hm]
    omega
  unfold read_header_block
  rw [h0, h4, h8]
  have h20 : (20 : Nat) ≤ 20 + fd.length := by omega
  simp only [h20, hlen, and_self, if_true, hflags, hmagic, hfd, hmok, hlok]

theorem foldl_set_length (key : Nat × Nat → Nat) (val : Nat × Nat → Nat)
    (l : List (Nat × Nat)) (acc : List Nat) :
    (l.foldl (fun r p => r.set (key p) (val p)) acc).length = acc.length := by
  induction l generalizing acc with
  | nil => rfl
  | cons p t ih =>
    rw [List.foldl_cons, ih]
    exact List.length_set acc _ _

theorem foldl_set_getElem_notmem (key : Nat × Nat → Nat) (val : Nat × Nat → Nat)
    (l : List (Nat × Nat)) (acc : List Nat) (k : Nat) (h : ∀ p ∈ l, key p ≠ k) :
    (l.foldl (fun r p => r.set (key p) (val p)) acc)[k]? = acc[k]? := by
  induction l generalizing acc with
  | nil => rfl
  | cons p t ih =>
    rw [List.foldl_cons, ih _ (fun q hq => h q (List.mem_cons_of_mem _ hq))]
    exact List.getElem?_set_ne (h p (List.mem_cons_self p t))

theorem foldl_set_getElem_mem (key : Nat × Nat → Nat) (val : Nat × Nat → Nat)
    (l : List (Nat × Nat)) (acc : List Nat) (q : Nat × Nat) (hq : q ∈ l)
    (hinj : ∀ p ∈ l, key p = key q → p = q) (hlt : key q < acc.length) :
    (l.foldl (fun r p => r.set (key p) (val p)) acc)[key q]? = some (val q) := by
  induction l generalizing acc with
  | nil => cases hq
  | cons p t ih =>
    rw [List.foldl_cons]
    by_cases hmem : q ∈ t
    · exact ih _ hmem (fun r hr he => hinj r (List.mem_cons_of_mem _ hr) he)
        (by rw [List.length_set]; exact hlt)
    · have hpq : p = q := by
        rcases List.mem_cons.mp hq with h | h
        · exact h.symm
        · exact absurd h hmem
      subst hpq
      rw [foldl_set_getElem_notmem]
      · exact List.getElem?_set_eq hlt
      · intro r hr he
        exact absurd (hinj r (List.mem_cons_of_mem _ hr) he ▸ hr) hmem

theorem v11EncodingPairs_mem (p : Nat × Nat) :
    p ∈ v11EncodingPairs ↔ p.1 < 256 ∧ p.2 < 256 - p.1 := by
  obtain ⟨x, y⟩ := p
  simp only [v11EncodingPairs, List.mem_flatMap, List.mem_map, List.mem_range,
    Prod.mk.injEq]
  constructor
  · rintro ⟨a, ha, b, hb, hax, hby⟩
    exact ⟨hax ▸ ha, hax ▸ hby ▸ hb⟩
  · rintro ⟨hx, hy⟩
    exact ⟨x, hx, y, hy, rfl, rfl⟩

theorem v11Key_eq (p : Nat × Nat) (h : p.1 < 256) : v11Key p = 256 * p.2 + p.1 := by
  unfold v11Key
  rw [Nat.shiftLeft_eq, Nat.mul_comm]
  exact (Nat.mul_add_lt_is_or h p.2).symm

theorem roundProb_le (x : Nat) (h : x ≤ 255) : roundProb x ≤ 32768 := by
  unfold roundProb
  omega

theorem lor_shift (a b k : Nat) (ha : a < 2 ^ k) : a ||| (b <<< k) = 2 ^ k * b + a := by
  rw [Nat.shiftLeft_eq, Nat.mul_comm, Nat.lor_comm]
  exact (Nat.mul_add_lt_is_or ha b).symm

theorem v11PackedValue_eq (x y : Nat) (hx : x ≤ 255) (hy : y ≤ 255) :
    v11PackedValue x y = roundProb x + 65536 * roundProb y
      + 4294967296 * roundProb (255 - x - y) := by
  have ha : roundProb x ≤ 32768 := roundProb_le x hx
  have hb : roundProb y ≤ 32768 := roundProb_le y hy
  have hc : roundProb (255 - x - y) ≤ 32768 := roundProb_le _ (by omega)
  unfold v11PackedValue
  rw [lor_shift _ _ 16 (by omega), lor_shift _ _ 32 (by omega)]
  omega

/-- C2: the layout-2 to layout-1 probability encoding table has exactly 65536
entries, and for every pair `(x, y)` of 8-bit values with `x + y ≤ 255` the
entry at key `(y<<8)|x` packs the three 16-bit values `a = round(x*32768/255)`,
`b = round(y*32768/255)`, `c = round((255-x-y)*32768/255)` — the entry equals
`a + b*2^16 + c*2^32` with `a, b, c ≤ 32768` — and `a + b + c = 32768 ± 1`. -/
theorem v11_probability_encoding_table_correct :
    compute_bgen_v11_probability_encoding_table.length = 65536 ∧
    ∀ x y : Nat, x + y ≤ 255 →
      compute_bgen_v11_probability_encoding_table[(y <<< 8) ||| x]?
          = some (v11PackedValue x y)
      ∧ v11PackedValue x y = roundProb x + 65536 * roundProb y
          + 4294967296 * roundProb (255 - x - y)
      ∧ roundProb x ≤ 32768 ∧ roundProb y ≤ 32768 ∧ roundProb (255 - x - y) ≤ 32768
      ∧ 32767 ≤ roundProb x + roundProb y + roundProb (255 - x - y)
      ∧ roundProb x + roundProb y + roundProb (255 - x - y) ≤ 32769 := by
  constructor
  · rw [compute_bgen_v11_probability_encoding_table, foldl_set_length]
    exact List.length_replicate 65536 0
  · intro x y hxy
    have hx : x ≤ 255 := by omega
    have hy : y ≤ 255 := by omega
    have hkey : v11Key (x, y) = 256 * y + x := v11Key_eq (x, y) (by show x < 256; omega)
    refine ⟨?_, v11PackedValue_eq x y hx hy, roundProb_le x hx, roundProb_le y hy,
      roundProb_le _ (by omega), by unfold roundProb; omega, by unfold roundProb; omega⟩
    have hmem : (x, y) ∈ v11EncodingPairs := (v11EncodingPairs_mem (x, y)).mpr
      ⟨by show x < 256; omega, by show y < 256 - x; omega⟩
    have hinj : ∀ p ∈ v11EncodingPairs, v11Key p = v11Key (x, y) → p = (x, y) := by
      intro p hp he
      obtain ⟨hp1, hp2⟩ := (v11EncodingPairs_mem p).mp hp
      rw [v11Key_eq p hp1, hkey] at he
      obtain ⟨a, b⟩ := p
      simp only at hp1 hp2 he
      have hab : a = x ∧ b = y := by omega
      simp [hab.1, hab.2]
    exact foldl_set_getElem_mem v11Key (fun p => v11PackedValue p.1 p.2)
      v11EncodingPairs (List.replicate 65536 0) (x, y) hmem hinj
      (by rw [hkey, List.length_replicate]; omega)

/-- Witness for the claim-two theorem, at the concrete pair `(10, 20)`. -/
theorem v11_probability_encoding_table_correct_witness :
    compute_bgen_v11_probability_encoding_table.length = 65536 ∧
    10 + 20 ≤ 255 ∧
    (compute_bgen_v11_probability_encoding_table[(20 <<< 8) ||| 10]?
        = some (v11PackedValue 10 20)
      ∧ v11PackedValue 10 20 = roundProb 10 + 65536 * roundProb 20
          + 4294967296 * roundProb (255 - 10 - 20)
      ∧ roundProb 10 ≤ 32768 ∧ roundProb 20 ≤ 32768 ∧ roundProb (255 - 10 - 20) ≤ 32768
      ∧ 32767 ≤ roundProb 10 + roundProb 20 + roundProb (255 - 10 - 20)
      ∧ roundProb 10 + roundProb 20 + roundProb (255 - 10 - 20) ≤ 32769) :=
  ⟨v11_probability_encoding_table_correct.1, by omega,
    v11_probability_encoding_table_correct.2 10 20 (by omega)⟩

/-- C1 (amended): a variant fed to the -v11 transcoder raises
`UnsupportedTranscode` exactly when it is not biallelic, not 8-bit, not
unphased, or its probability buffer holds fewer bytes than the sample count;
diploidy is not among the checks.  The allele-count check precedes all
serialisation, so the error always precedes any output for the variant,
which the model captures by returning no bytes on error. -/
theorem transcode_v11_error_characterisation (ctx : Context)
    (alleles : List String) (pack : GenotypeDataBlock) :
    transcode_v11_variant ctx alleles pack
        = Except.error TranscodeError.unsupportedTranscode
      ↔ (alleles.length ≠ 2 ∨ pack.bits ≠ 8 ∨ pack.phased ≠ 0
          ∨ pack.buffer.length < ctx.number_of_samples) := by
  unfold transcode_v11_variant
  by_cases h1 : alleles.length = 2 <;> by_cases h2 : pack.bits = 8 <;>
    by_cases h3 : pack.phased = 0 <;>
    by_cases h4 : pack.buffer.length < ctx.number_of_samples <;>
    simp [h1, h2, h3, h4]

/-- Counterexample to C1 as stated: a concrete 8-bit, unphased, biallelic
variant whose single sample is haploid — min and max ploidy 1, not diploid —
is transcoded without any error, so a non-diploid variant does not raise
`UnsupportedTranscode`. -/
theorem transcode_v11_nondiploid_accepted :
    transcode_v11_variant ctxC1 allelesC1 packC1
        = Except.ok (v11SerialiseSamples packC1.ploidy packC1.buffer)
      ∧ packC1.ploidyExtent = (1, 1) ∧ packC1.ploidy = [1]
      ∧ packC1.bits = 8 ∧ packC1.phased = 0 ∧ allelesC1.length = 2 :=
  ⟨rfl, rfl, rfl, rfl, rfl, rfl⟩

/-- C10: for every layout-2 input context the -v11 transcoder emits a leading
offset word equal to the output header's size followed by a header whose flag
word is exactly layout 1 with zlib compression (the value 5) — in particular
the sample-identifier bit is cleared even when the input has it set — so the
output contains no sample-identifier block. -/
theorem transcode_v11_header_flags (ctx : Context)
    (hl : ctx.flags &&& e_Layout = e_Layout2) :
    process_selection_transcode_bgen_v11_header ctx
        = Except.ok (writeU32 (20 + ctx.free_data.length)
            ++ write_header_block { ctx with flags := e_Layout1 ||| e_ZlibCompression })
      ∧ e_Layout1 ||| e_ZlibCompression = 5
      ∧ (e_Layout1 ||| e_ZlibCompression) &&& e_Layout = e_Layout1
      ∧ (e_Layout1 ||| e_ZlibCompression) &&& 3 = e_ZlibCompression
      ∧ (e_Layout1 ||| e_ZlibCompression) &&& e_SampleIdentifiers = 0
      ∧ ({ ctx with flags := e_Layout1 ||| e_ZlibCompression } : Context).header_size
          = 20 + ctx.free_data.length := by
  refine ⟨?_, by decide, by decide, by decide, by decide, rfl⟩
  unfold process_selection_transcode_bgen_v11_header
  rw [if_neg (by simp [hl])]
  rfl

/-- C5: with a recorded fingerprint present, `check_metadata` raises an
`IndexStale`-kind error exactly when the recorded size or the recorded first
bytes differ from the data file's; a fingerprint differing only in
`last_write_time` behaves identically to an untouched one, because the
modification time is never compared. -/
theorem check_metadata_stale_iff (file idx : FileMetadata) :
    ((∃ e, check_metadata file (some idx) = Except.error e)
        ↔ (file.size ≠ idx.size ∨ file.first_bytes ≠ idx.first_bytes))
    ∧ (∀ t : Int, check_metadata file (some { idx with last_write_time := t })
          = check_metadata file (some idx)) := by
  refine ⟨?_, fun t => rfl⟩
  unfold check_metadata
  by_cases h1 : file.size = idx.size <;>
    by_cases h2 : file.first_bytes = idx.first_bytes <;>
    simp [h1, h2]

theorem hasFile_eq (fs : FileSys) (n : String) :
    fs.hasFile n = decide (n ∈ fs.files) := by
  simp [FileSys.hasFile, List.contains, List.elem_eq_mem]

theorem ne_append_tmp (s : String) : s ≠ s ++ ".tmp" := by
  intro h
  have h2 := congrArg String.length h
  rw [String.length_append] at h2
  have h4 : (".tmp" : String).length = 4 := by decide
  omega

/-- C3: the index build's filesystem discipline.  First conjunct: whenever
the temporary `<index>.tmp` exists and -clobber was not given, the build
fails with `IndexExists` and the filesystem is untouched, whatever the
direct build would have done.  Second: under the guard — temporary absent or
-clobber given — a successful build yields a filesystem with the final index
present, the temporary gone, and every other name untouched.  Third: a
failing build deletes the temporary, leaves the final index exactly as it
was (in particular not created), and touches no other name. -/
theorem create_bgen_index_unsafe_spec (fs : FileSys) (idx : String)
    (clobber : Bool)
    (hguard : fs.hasFile (idx ++ ".tmp") = false ∨ clobber = true) :
    (∀ b : Bool,
      create_bgen_index_unsafe (fs.create (idx ++ ".tmp")) idx false b
        = Except.error (IndexBuildError.indexExists, fs.create (idx ++ ".tmp")))
    ∧ IndexBuildSuccessPost fs idx clobber
    ∧ IndexBuildFailurePost fs idx clobber := by
  have htmp : idx ≠ idx ++ ".tmp" := ne_append_tmp idx
  have hguard2 : (fs.hasFile (idx ++ ".tmp") && !clobber) = false := by
    rcases hguard with h | h <;> simp [h]
  refine ⟨?_, ?_, ?_⟩
  · intro b
    unfold create_bgen_index_unsafe
    rw [if_pos]
    simp [FileSys.create, hasFile_eq]
  · refine ⟨((fs.create (idx ++ ".tmp")).renameFile (idx ++ ".tmp") idx), ?_, ?_, ?_, ?_⟩
    · unfold create_bgen_index_unsafe
      rw [if_neg (by simp [hguard2])]
      simp
    · simp [FileSys.renameFile, FileSys.create, FileSys.removeFile, hasFile_eq]
    · simp [FileSys.renameFile, FileSys.create, FileSys.removeFile, hasFile_eq,
        List.mem_filter]
      exact fun h => absurd h.symm htmp
    · intro n hn1 hn2
      simp [FileSys.renameFile, FileSys.create, FileSys.removeFile, hasFile_eq,
        List.mem_filter, List.mem_cons, hn1, hn2]
  · refine ⟨((fs.create (idx ++ ".tmp")).removeFile (idx ++ ".tmp")), ?_, ?_, ?_, ?_⟩
    · unfold create_bgen_index_unsafe
      rw [if_neg (by simp [hguard2])]
      simp
    · simp [FileSys.create, FileSys.removeFile, hasFile_eq, List.mem_filter]
    · simp [FileSys.create, FileSys.removeFile, hasFile_eq, List.mem_filter,
        List.mem_cons, htmp]
    · intro n hn1 hn2
      simp [FileSys.create, FileSys.removeFile, hasFile_eq, List.mem_filter,
        List.mem_cons, hn1, hn2]

/-- Witness for the claim-three theorem on a concrete filesystem holding only
the data file, with -clobber absent. -/
theorem create_bgen_index_unsafe_spec_witness :
    ((FileSys.mk [("f.bgen")]).hasFile (("f.bgen.bgi") ++ ".tmp") = false ∨ false = true)
    ∧ ((∀ b : Bool,
          create_bgen_index_unsafe
              ((FileSys.mk [("f.bgen")]).create (("f.bgen.bgi") ++ ".tmp"))
              ("f.bgen.bgi") false b
            = Except.error (IndexBuildError.indexExists,
                (FileSys.mk [("f.bgen")]).create (("f.bgen.bgi") ++ ".tmp")))
        ∧ IndexBuildSuccessPost (FileSys.mk [("f.bgen")]) ("f.bgen.bgi") false
        ∧ IndexBuildFailurePost (FileSys.mk [("f.bgen")]) ("f.bgen.bgi") false) :=
  ⟨Or.inl (by decide),
    create_bgen_index_unsafe_spec (FileSys.mk [("f.bgen")]) ("f.bgen.bgi") false
      (Or.inl (by decide))⟩

/-- Witness for the claim-ten theorem at a concrete layout-2 context whose
sample-identifier bit is set. -/
theorem transcode_v11_header_flags_witness :
    ctxC10.flags &&& e_Layout = e_Layout2
    ∧ (process_selection_transcode_bgen_v11_header ctxC10
          = Except.ok (writeU32 (20 + ctxC10.free_data.length)
              ++ write_header_block
                { ctxC10 with flags := e_Layout1 ||| e_ZlibCompression })
        ∧ e_Layout1 ||| e_ZlibCompression = 5
        ∧ (e_Layout1 ||| e_ZlibCompression) &&& e_Layout = e_Layout1
        ∧ (e_Layout1 ||| e_ZlibCompression) &&& 3 = e_ZlibCompression
        ∧ (e_Layout1 ||| e_ZlibCompression) &&& e_SampleIdentifiers = 0
        ∧ ({ ctxC10 with flags := e_Layout1 ||| e_ZlibCompression } : Context).header_size
            = 20 + ctxC10.free_data.length) :=
  ⟨by decide, transcode_v11_header_flags ctxC10 (by decide)⟩

theorem buildIndexRows_length (s : Nat) (vs : List VariantRecord) :
    (buildIndexRows s vs).length = vs.length := by
  induction vs generalizing s with
  | nil => rfl
  | cons v rest ih => simp [buildIndexRows, ih]

theorem buildIndexRows_getElem (s : Nat) (vs : List VariantRecord) (i : Nat)
    (h : i < vs.length) :
    ∃ row v, (buildIndexRows s vs)[i]? = some row ∧ vs[i]? = some v
      ∧ row.file_start_position = s + variantsLength (vs.take i)
      ∧ row.size_in_bytes = v.idLength + v.probLength := by
  induction vs generalizing s i with
  | nil => simp at h
  | cons v rest ih =>
    cases i with
    | zero =>
      refine ⟨rowOf s v, v, ?_, ?_, ?_, ?_⟩
      · simp [buildIndexRows]
      · simp
      · simp [rowOf, variantsLength]
      · rfl
    | succ j =>
      obtain ⟨row, w, hrow, hw, hstart, hsize⟩ :=
        ih (s + (v.idLength + v.probLength)) j (by simpa using h)
      refine ⟨row, w, ?_, ?_, ?_, hsize⟩
      · simpa [buildIndexRows] using hrow
      · simpa using hw
      · rw [hstart]
        simp [variantsLength]
        omega

theorem buildIndexRows_chain (s : Nat) (vs : List VariantRecord) (i : Nat)
    (row row' : VariantRow)
    (h1 : (buildIndexRows s vs)[i]? = some row)
    (h2 : (buildIndexRows s vs)[i + 1]? = some row') :
    row'.file_start_position = row.file_start_position + row.size_in_bytes := by
  induction vs generalizing s i with
  | nil => simp [buildIndexRows] at h1
  | cons v rest ih =>
    cases i with
    | zero =>
      simp [buildIndexRows] at h1 h2
      cases rest with
      | nil => simp [buildIndexRows] at h2
      | cons w t =>
        simp [buildIndexRows] at h2
        rw [← h1, ← h2]
        simp [rowOf]
    | succ j =>
      exact ih (s + (v.idLength + v.probLength)) j
        (by simpa [buildIndexRows] using h1)
        (by simpa [buildIndexRows] using h2)

/-- C7: during an index build starting with the cursor at byte `s`, one row
is inserted per variant; the i-th row's `file_start_position` is the offset
at which the i-th variant's record begins (the cursor position captured
before its identifying and probability blocks are consumed), its
`size_in_bytes` is the variant's total length — identifying block plus
probability block — and consecutive rows tile the variant stream without
gaps: each row starts exactly where the previous one ends. -/
theorem create_bgen_index_rows_spec (s : Nat) (vs : List VariantRecord) :
    (buildIndexRows s vs).length = vs.length
    ∧ (∀ i, i < vs.length →
        ∃ row v, (buildIndexRows s vs)[i]? = some row ∧ vs[i]? = some v
          ∧ row.file_start_position = s + variantsLength (vs.take i)
          ∧ row.size_in_bytes = v.idLength + v.probLength)
    ∧ (∀ i row row', (buildIndexRows s vs)[i]? = some row
        → (buildIndexRows s vs)[i + 1]? = some row'
        → row'.file_start_position = row.file_start_position + row.size_in_bytes) :=
  ⟨buildIndexRows_length s vs,
    fun i h => buildIndexRows_getElem s vs i h,
    fun i row row' h1 h2 => buildIndexRows_chain s vs i row row' h1 h2⟩

/-- Witness for the claim-seven theorem on the concrete two-variant stream
`vsC7` starting at byte 24. -/
theorem create_bgen_index_rows_spec_witness :
    (buildIndexRows 24 vsC7).length = vsC7.length
    ∧ 0 < vsC7.length
    ∧ (∃ row v, (buildIndexRows 24 vsC7)[0]? = some row ∧ vsC7[0]? = some v
        ∧ row.file_start_position = 24 + variantsLength (vsC7.take 0)
        ∧ row.size_in_bytes = v.idLength + v.probLength)
    ∧ (buildIndexRows 24 vsC7)[0]? = some rowC7a
    ∧ (buildIndexRows 24 vsC7)[1]? = some rowC7b
    ∧ rowC7b.file_start_position = rowC7a.file_start_position + rowC7a.size_in_bytes :=
  ⟨(create_bgen_index_rows_spec 24 vsC7).1, by decide,
    (create_bgen_index_rows_spec 24 vsC7).2.1 0 (by decide),
    by decide, by decide,
    (create_bgen_index_rows_spec 24 vsC7).2.2 0 rowC7a rowC7b (by decide) (by decide)⟩

theorem writeU32_length (v : Nat) : (writeU32 v).length = 4 := rfl

theorem PlanTiles_flatMap (file : List Nat) (plan : List (Nat × Nat)) (s : Nat)
    (h : PlanTiles s file.length plan) :
    plan.flatMap (fun r => sliceBytes file r.1 r.2) = file.drop s := by
  induction plan generalizing s with
  | nil =>
    unfold PlanTiles at h
    rw [List.flatMap_nil, h, List.drop_length]
  | cons r rest ih =>
    unfold PlanTiles at h
    obtain ⟨h1, h2⟩ := h
    rw [List.flatMap_cons, ih (s + r.2) h2, ← h1]
    unfold sliceBytes
    rw [h1, ← List.drop_drop]
    exact List.take_append_drop r.2 (file.drop s)

/-- C4: output of the no-transcode path on a well-formed file.  In general
the output is the original offset word, the header with `number_of_variants`
overwritten to the plan's size, the bytes between header end and variant
data start copied verbatim (the sample-identifier block region `middle`),
and then, for each plan entry in order, exactly `length` bytes copied from
the input starting at `file_start`.  When the plan tiles the variant data
region — the no-predicate case — the output is byte-for-byte the input
except the `number_of_variants` field (bytes 8 to 11). -/
theorem process_selection_notranscode_spec (file : List Nat) (offset : Nat)
    (c : Context) (middle data : List Nat) (plan : List (Nat × Nat))
    (hwf : c.WF)
    (hfile : file = writeU32 offset ++ (write_header_block c ++ (middle ++ data)))
    (hoff : offset = c.header_size + middle.length)
    (hoff32 : offset < 2 ^ 32) :
    process_selection_notranscode file plan
      = some (writeU32 offset
          ++ (write_header_block { c with number_of_variants := plan.length }
          ++ (middle ++ plan.flatMap (fun r => sliceBytes file r.1 r.2))))
    ∧ (PlanTiles (4 + offset) file.length plan →
        process_selection_notranscode file plan
          = some (file.take 8 ++ (writeU32 plan.length ++ file.drop 12))) := by
  have hm4 : c.magic.length = 4 := hwf.2.2.2.2.1
  have h0 : readU32 file 0 = some offset := by
    rw [hfile]; exact readU32_writeU32 offset hoff32 _
  have hh : read_header_block file 4 = some c := by
    rw [hfile]
    have hg := read_header_block_gen c hwf (writeU32 offset) (middle ++ data)
    rw [writeU32_length] at hg
    exact hg
  have hmid : sliceBytes file (4 + c.header_size) (offset - c.header_size)
      = middle := by
    rw [hfile, show offset - c.header_size = middle.length by omega]
    have h1 := sliceBytes_append (writeU32 offset)
      (write_header_block c ++ (middle ++ data)) c.header_size middle.length
    rw [writeU32_length] at h1
    rw [h1]
    have h2 := sliceBytes_append (write_header_block c) (middle ++ data) 0
      middle.length
    rw [write_header_block_length c hm4, Nat.add_zero] at h2
    rw [h2]
    exact sliceBytes_self middle data
  have hmain : process_selection_notranscode file plan
      = some (writeU32 offset
          ++ (write_header_block { c with number_of_variants := plan.length }
          ++ (middle ++ plan.flatMap (fun r => sliceBytes file r.1 r.2)))) := by
    unfold process_selection_notranscode
    simp only [h0, hh]
    rw [hmid]
  refine ⟨hmain, fun htiles => ?_⟩
  rw [hmain, PlanTiles_flatMap file plan (4 + offset) htiles]
  have hdata : file.drop (4 + offset) = data := by
    rw [hfile]
    rw [show 4 + offset = (writeU32 offset).length + (c.header_size + middle.length)
      by rw [writeU32_length]; omega]
    rw [List.drop_append]
    rw [show c.header_size + middle.length
        = (write_header_block c).length + middle.length
      by rw [write_header_block_length c hm4]]
    rw [List.drop_append]
    exact List.drop_left middle data
  rw [hdata, hfile]
  obtain ⟨nv, ns, magic, fd, flags⟩ := c
  simp only [Context.header_size] at hoff ⊢
  simp [write_header_block, writeU32, Context.header_size, List.append_assoc]

/-- Witness for the claim-four theorem on the concrete file `fileC4` with the
tiling single-entry plan `planC4`. -/
theorem process_selection_notranscode_spec_witness :
    ctxC4.WF
    ∧ fileC4 = writeU32 20 ++ (write_header_block ctxC4 ++ ([] ++ [1, 2, 3]))
    ∧ (20 : Nat) = ctxC4.header_size + ([] : List Nat).length
    ∧ (20 : Nat) < 2 ^ 32
    ∧ (process_selection_notranscode fileC4 planC4
        = some (writeU32 20
            ++ (write_header_block { ctxC4 with number_of_variants := planC4.length }
            ++ ([] ++ planC4.flatMap (fun r => sliceBytes fileC4 r.1 r.2))))
      ∧ (PlanTiles (4 + 20) fileC4.length planC4 →
          process_selection_notranscode fileC4 planC4
            = some (fileC4.take 8 ++ (writeU32 planC4.length ++ fileC4.drop 12))))
    ∧ process_selection_notranscode fileC4 planC4
        = some (fileC4.take 8 ++ (writeU32 planC4.length ++ fileC4.drop 12)) :=
  ⟨by decide, rfl, by decide, by decide,
    process_selection_notranscode_spec fileC4 20 ctxC4 [] [1, 2, 3] planC4
      (by decide) rfl (by decide) (by decide),
    (process_selection_notranscode_spec fileC4 20 ctxC4 [] [1, 2, 3] planC4
      (by decide) rfl (by decide) (by decide)).2 (by decide)⟩

theorem find_char_append_self (c : Char) (pre post : List Char) (h : c ∉ pre) :
    find_char c (pre ++ c :: post) = some pre.length := by
  induction pre with
  | nil => simp [find_char]
  | cons a t ih =>
    have ha : a ≠ c := fun he => h (by rw [← he]; exact List.mem_cons_self a t)
    have ht : c ∉ t := fun hm => h (List.mem_cons_of_mem a hm)
    simp only [List.cons_append, find_char, if_neg ha, List.append_eq]
    rw [ih ht]
    simp

theorem stoi_digits (ds : List Char) (hne : ds ≠ [])
    (hdig : ∀ c ∈ ds, c.isDigit = true) (hmax : digitsVal ds ≤ 2147483647) :
    stoi ds = Except.ok ((digitsVal ds : Int)) := by
  obtain ⟨d, ds', rfl⟩ := List.exists_cons_of_ne_nil hne
  have hd : d.isDigit = true := hdig d (List.mem_cons_self d ds')
  have hminus : d ≠ ('-') := by
    intro he
    rw [he] at hd
    exact absurd hd (by decide)
  have hplus : d ≠ ('+') := by
    intro he
    rw [he] at hd
    exact absurd hd (by decide)
  unfold stoi
  simp only [List.head?_cons]
  have hsign : (if some d = some ('-') ∨ some d = some ('+')
      then (d :: ds').tail else d :: ds') = d :: ds' :=
    if_neg (by simp [hminus, hplus])
  rw [hsign, List.takeWhile_eq_self_iff.mpr hdig]
  rw [if_neg (by simp)]
  rw [show decide (some d = some ('-')) = false by simp [hminus]]
  simp only [Bool.false_eq_true, if_false]
  rw [if_neg (by omega)]

/-- Counterexample to C6 as stated: the range argument `01:100-` parses to
the closed range `[100, 2147483647]` — the omitted upper position becomes
`std::numeric_limits<int>::max()`, not the u32 maximum — so the variant at
u32 position `2147483648` on chromosome `01` is not matched although its
position is at least 100. -/
theorem parse_range_counterexample_u32 :
    parse_range [('0'), ('1'), (':'), ('1'), ('0'), ('0'), ('-')] = Except.ok rangeC6
    ∧ rangeMatches rangeC6 [('0'), ('1')] 2147483648 = false
    ∧ 100 ≤ 2147483648 :=
  ⟨rfl, by decide, by decide⟩

/-- C6 (amended): for every colon-free chromosome label and every decimal
position `p ≤ 2147483647` (the C++ `int` maximum, beyond which `std::stoi`
raises), the argument `<chr>:-<p>` parses to the closed range `[0, p]`,
matching a variant on `chr` exactly when its position is at most `p`; and
`<chr>:<p>-` parses to the closed range `[p, 2147483647]`, matching exactly
when the position lies between `p` and `2147483647` — positions above the
`int` maximum are not matched even though they are at least `p`. -/
theorem parse_range_open_bounds (chr ds : List Char) (p : Nat)
    (hchr : (':') ∉ chr) (hne : ds ≠ []) (hdig : ∀ c ∈ ds, c.isDigit = true)
    (hval : digitsVal ds = p) (hmax : p ≤ 2147483647) :
    (parse_range (chr ++ (':') :: ('-') :: ds) = Except.ok ⟨chr, 0, (p : Int)⟩
      ∧ ∀ pos : Nat, rangeMatches ⟨chr, 0, (p : Int)⟩ chr pos = true ↔ pos ≤ p)
    ∧ (parse_range (chr ++ (':') :: (ds ++ [('-')]))
        = Except.ok ⟨chr, (p : Int), 2147483647⟩
      ∧ ∀ pos : Nat,
          rangeMatches ⟨chr, (p : Int), 2147483647⟩ chr pos = true
            ↔ (p ≤ pos ∧ pos ≤ 2147483647)) := by
  have hstoi : stoi ds = Except.ok ((p : Int)) := by
    rw [← hval]
    exact stoi_digits ds hne hdig (by omega)
  have hlen0 : ds.length ≠ 0 := fun h0 => hne (List.length_eq_zero.mp h0)
  refine ⟨⟨?_, ?_⟩, ⟨?_, ?_⟩⟩
  · have h1 := find_char_append_self (':') chr (('-') :: ds) hchr
    have h2 : (chr ++ (':') :: ('-') :: ds).take chr.length = chr :=
      List.take_left chr _
    have h3 : (chr ++ (':') :: ('-') :: ds).drop (chr.length + 1) = ('-') :: ds := by
      rw [List.drop_append 1]
      rfl
    have h4 : find_char ('-') (('-') :: ds) = some 0 := by simp [find_char]
    unfold parse_range
    simp only [h1, h2, h3, h4, if_pos rfl, List.length_cons, Nat.add_sub_cancel,
      List.drop_succ_cons, List.drop_zero]
    rw [if_neg (Ne.symm hlen0), hstoi]
    exact if_pos ⟨by omega, by omega⟩
  · intro pos
    simp [rangeMatches]
  · have hdash : ('-') ∉ ds := fun hm => by
      have := hdig ('-') hm
      exact absurd this (by decide)
    have h1 := find_char_append_self (':') chr (ds ++ [('-')]) hchr
    have h2 : (chr ++ (':') :: (ds ++ [('-')])).take chr.length = chr :=
      List.take_left chr _
    have h3 : (chr ++ (':') :: (ds ++ [('-')])).drop (chr.length + 1)
        = ds ++ [('-')] := by
      rw [List.drop_append 1]
      rfl
    have h4 : find_char ('-') (ds ++ [('-')]) = some ds.length :=
      find_char_append_self ('-') ds [] hdash
    have h5 : (ds ++ [('-')]).take ds.length = ds := List.take_left ds _
    unfold parse_range
    simp only [h1, h2, h3, h4, h5]
    rw [if_neg hlen0]
    rw [hstoi]
    rw [if_pos (by simp)]
    exact if_pos ⟨by omega, by omega⟩
  · intro pos
    simp [rangeMatches]

/-- Witness for the amended claim-six theorem at chromosome `01` and
position 7. -/
theorem parse_range_open_bounds_witness :
    ((':') ∉ [('0'), ('1')])
    ∧ ([('7')] : List Char) ≠ []
    ∧ (∀ c ∈ [('7')], c.isDigit = true)
    ∧ digitsVal [('7')] = 7
    ∧ 7 ≤ 2147483647
    ∧ ((parse_range ([('0'), ('1')] ++ (':') :: ('-') :: [('7')])
          = Except.ok ⟨[('0'), ('1')], 0, (7 : Int)⟩
        ∧ ∀ pos : Nat,
            rangeMatches ⟨[('0'), ('1')], 0, (7 : Int)⟩ [('0'), ('1')] pos = true
              ↔ pos ≤ 7)
      ∧ (parse_range ([('0'), ('1')] ++ (':') :: ([('7')] ++ [('-')]))
          = Except.ok ⟨[('0'), ('1')], (7 : Int), 2147483647⟩
        ∧ ∀ pos : Nat,
            rangeMatches ⟨[('0'), ('1')], (7 : Int), 2147483647⟩ [('0'), ('1')] pos
                = true
              ↔ (7 ≤ pos ∧ pos ≤ 2147483647))) :=
  ⟨by decide, by decide, by decide, by decide, by decide,
    parse_range_open_bounds [('0'), ('1')] [('7')] 7 (by decide) (by decide)
      (by decide) (by decide) (by decide)⟩

theorem take_app4 (v : Nat) (l : List Nat) (k : Nat) :
    (writeU32 v ++ l).take (4 + k) = writeU32 v ++ l.take k := by
  show (writeU32 v ++ l).take ((writeU32 v).length + k) = writeU32 v ++ l.take k
  exact List.take_append k

theorem drop_app4 (v : Nat) (l : List Nat) (k : Nat) :
    (writeU32 v ++ l).drop (4 + k) = l.drop k := by
  show (writeU32 v ++ l).drop ((writeU32 v).length + k) = l.drop k
  exact List.drop_append k

theorem take20_gen (offset : Nat) (c : Context) (rest : List Nat)
    (hm : c.magic.length = 4) :
    (writeU32 offset ++ (write_header_block c ++ rest)).take 20
      = writeU32 offset ++ (writeU32 c.header_size
          ++ (writeU32 c.number_of_variants
          ++ (writeU32 c.number_of_samples ++ c.magic))) := by
  have hassoc : write_header_block c ++ rest
      = writeU32 c.header_size ++ (writeU32 c.number_of_variants
        ++ (writeU32 c.number_of_samples ++ (c.magic
        ++ (c.free_data ++ (writeU32 c.flags ++ rest))))) := by
    simp [write_header_block, List.append_assoc]
  rw [hassoc]
  refine (take_app4 offset _ 16).trans (congrArg _ ?_)
  refine (take_app4 c.header_size _ 12).trans (congrArg _ ?_)
  refine (take_app4 c.number_of_variants _ 8).trans (congrArg _ ?_)
  refine (take_app4 c.number_of_samples _ 4).trans (congrArg _ ?_)
  rw [show (4 : Nat) = c.magic.length + 0 by rw [hm]]
  rw [List.take_append]
  simp

theorem drop_flags_gen (offset : Nat) (c : Context) (rest : List Nat)
    (hm : c.magic.length = 4) :
    (writeU32 offset ++ (write_header_block c ++ rest)).drop
        (20 + c.free_data.length)
      = writeU32 c.flags ++ rest := by
  have hassoc : write_header_block c ++ rest
      = writeU32 c.header_size ++ (writeU32 c.number_of_variants
        ++ (writeU32 c.number_of_samples ++ (c.magic
        ++ (c.free_data ++ (writeU32 c.flags ++ rest))))) := by
    simp [write_header_block, List.append_assoc]
  rw [hassoc]
  rw [show 20 + c.free_data.length
      = 4 + (4 + (4 + (4 + (c.magic.length + (c.free_data.length + 0)))))
    by rw [hm]; omega]
  rw [drop_app4, drop_app4, drop_app4, drop_app4, List.drop_append,
    List.drop_append]
  rfl

/-- C9: behaviour of `edit_free_data` on a well-formed file whose free-data
field has the length of `newFD`.  A new value of any other length (here one
byte longer) fails with the file unchanged, whether or not -really was
given; without -really the file is returned untouched; with -really exactly
the bytes from 20 to `20 + |newFD|` are overwritten with the new value —
every byte before 20 and from `20 + |newFD|` on is unchanged, the length is
unchanged — and re-reading the file afterwards yields `free_data = newFD`. -/
theorem edit_free_data_spec (file : List Nat) (offset : Nat) (c : Context)
    (rest newFD : List Nat) (hwf : c.WF)
    (hfile : file = writeU32 offset ++ (write_header_block c ++ rest))
    (hlen : newFD.length = c.free_data.length) :
    (∀ (b : Nat) (really : Bool),
        edit_free_data file (b :: newFD) really = (file, EditStatus.sizeMismatch))
    ∧ edit_free_data file newFD false = (file, EditStatus.dryRun)
    ∧ ∃ out, edit_free_data file newFD true = (out, EditStatus.applied)
        ∧ out = writeU32 offset
            ++ (write_header_block { c with free_data := newFD } ++ rest)
        ∧ out.take 20 = file.take 20
        ∧ out.drop (20 + newFD.length) = file.drop (20 + newFD.length)
        ∧ out.length = file.length
        ∧ read_header_block out 4 = some { c with free_data := newFD } := by
  have hm : c.magic.length = 4 := hwf.2.2.2.2.1
  have hparse : read_header_block file 4 = some c := by
    rw [hfile]
    have hg := read_header_block_gen c hwf (writeU32 offset) rest
    rw [writeU32_length] at hg
    exact hg
  have hwf2 : ({ c with free_data := newFD } : Context).WF := by
    obtain ⟨h1, h2, h3, h4, h5, h6, h7⟩ := hwf
    refine ⟨h1, h2, h3, ?_, h5, h6, h7⟩
    simp only [Context.header_size] at h4 ⊢
    omega
  have htake : file.take 20 = writeU32 offset ++ (writeU32 c.header_size
      ++ (writeU32 c.number_of_variants
      ++ (writeU32 c.number_of_samples ++ c.magic))) := by
    rw [hfile]
    exact take20_gen offset c rest hm
  have hdrop : file.drop (20 + newFD.length) = writeU32 c.flags ++ rest := by
    rw [hfile, hlen]
    exact drop_flags_gen offset c rest hm
  have hout : file.take 20 ++ (newFD ++ file.drop (20 + newFD.length))
      = writeU32 offset
          ++ (write_header_block { c with free_data := newFD } ++ rest) := by
    rw [htake, hdrop]
    have hhs : ({ c with free_data := newFD } : Context).header_size
        = c.header_size := by
      simp only [Context.header_size]
      omega
    simp [write_header_block, hhs, List.append_assoc]
  refine ⟨?_, ?_, ?_⟩
  · intro b really
    unfold edit_free_data
    simp only [hparse]
    rw [if_pos (by simp only [List.length_cons]; omega)]
  · unfold edit_free_data
    simp only [hparse]
    rw [if_neg (by omega)]
    simp
  · refine ⟨file.take 20 ++ (newFD ++ file.drop (20 + newFD.length)), ?_, hout,
      ?_, ?_, ?_, ?_⟩
    · unfold edit_free_data
      simp only [hparse]
      rw [if_neg (by omega)]
      simp
    · have h20 : (file.take 20).length = 20 := by
        rw [hfile]
        simp [write_header_block, writeU32, List.length_append, hm]
      generalize hT : file.take 20 = T at h20 ⊢
      rw [← h20]
      exact List.take_left T _
    · rw [show file.take 20 ++ (newFD ++ file.drop (20 + newFD.length))
          = (file.take 20 ++ newFD) ++ file.drop (20 + newFD.length)
        by simp [List.append_assoc]]
      have h20 : (file.take 20 ++ newFD).length = 20 + newFD.length := by
        rw [hfile]
        simp [write_header_block, writeU32, List.length_append, hm]
        omega
      generalize hT : file.take 20 ++ newFD = T at h20 ⊢
      rw [← h20]
      exact List.drop_left T _
    · rw [hout, hfile]
      simp [write_header_block, writeU32, Context.header_size, List.length_append]
      omega
    · rw [hout]
      have hg := read_header_block_gen { c with free_data := newFD } hwf2
        (writeU32 offset) rest
      rw [writeU32_length] at hg
      exact hg

/-- Witness for the claim-nine theorem on the concrete file `fileC9`, whose
free-data field is one byte long, replaced by the one-byte value 3. -/
theorem edit_free_data_spec_witness :
    ctxC9.WF
    ∧ fileC9 = writeU32 21 ++ (write_header_block ctxC9 ++ [5, 6])
    ∧ ([3] : List Nat).length = ctxC9.free_data.length
    ∧ ((∀ (b : Nat) (really : Bool),
          edit_free_data fileC9 (b :: [3]) really = (fileC9, EditStatus.sizeMismatch))
      ∧ edit_free_data fileC9 [3] false = (fileC9, EditStatus.dryRun)
      ∧ ∃ out, edit_free_data fileC9 [3] true = (out, EditStatus.applied)
          ∧ out = writeU32 21
              ++ (write_header_block { ctxC9 with free_data := [3] } ++ [5, 6])
          ∧ out.take 20 = fileC9.take 20
          ∧ out.drop (20 + ([3] : List Nat).length)
              = fileC9.drop (20 + ([3] : List Nat).length)
          ∧ out.length = fileC9.length
          ∧ read_header_block out 4 = some { ctxC9 with free_data := [3] }) :=
  ⟨by decide, rfl, by decide,
    edit_free_data_spec fileC9 21 ctxC9 [5, 6] [3] (by decide) rfl (by decide)⟩

theorem take_len_append (A B : List Nat) (n : Nat) (h : A.length = n) :
    (A ++ B).take n = A := by
  rw [← h]
  exact List.take_left A B

theorem drop_len_append (A B : List Nat) (n : Nat) (h : A.length = n) :
    (A ++ B).drop n = B := by
  rw [← h]
  exact List.drop_left A B

theorem catInput_parse (g : CatInput) (hwf : g.WF) :
    readU32 g.file 0 = some g.offset
      ∧ read_header_block g.file 4 = some g.context := by
  obtain ⟨hc, hoff, hoff32⟩ := hwf
  constructor
  · exact readU32_writeU32 g.offset hoff32 _
  · have hg := read_header_block_gen g.context hc (writeU32 g.offset)
      (g.middle ++ g.data)
    rw [writeU32_length] at hg
    exact hg

theorem catInput_drop_data (g : CatInput) (hwf : g.WF) :
    g.file.drop (g.offset + 4) = g.data := by
  obtain ⟨hc, hoff, hoff32⟩ := hwf
  have hm : g.context.magic.length = 4 := hc.2.2.2.2.1
  have hsplit : g.file
      = (writeU32 g.offset ++ (write_header_block g.context ++ g.middle)) ++ g.data := by
    simp [CatInput.file, List.append_assoc]
  rw [hsplit]
  refine drop_len_append _ _ _ ?_
  simp only [List.length_append, writeU32_length, write_header_block_length g.context hm]
  simp only [Context.header_size] at hoff ⊢
  omega

theorem catInput_file_as_acc (g : CatInput) (hwf : g.WF) :
    writeU32 g.offset ++ (write_header_block g.context
      ++ g.file.drop (4 + g.context.header_size)) = g.file := by
  have hm : g.context.magic.length = 4 := hwf.1.2.2.2.2.1
  have hd : g.file.drop (4 + g.context.header_size) = g.middle ++ g.data := by
    have hsplit : g.file
        = (writeU32 g.offset ++ write_header_block g.context) ++ (g.middle ++ g.data) := by
      simp [CatInput.file, List.append_assoc]
    rw [hsplit]
    refine drop_len_append _ _ _ ?_
    simp only [List.length_append, writeU32_length,
      write_header_block_length g.context hm]
  rw [hd]
  rfl

theorem concatLoop_all_match (gs : List CatInput) (rc : Context) (out : List Nat)
    (hwfs : ∀ g ∈ gs, g.WF)
    (hmatch : ∀ g ∈ gs, g.context.number_of_samples = rc.number_of_samples
        ∧ g.context.flags = rc.flags) :
    concatLoop rc out (gs.map CatInput.file)
      = Except.ok (patchHeaderAt4
          (out ++ (gs.map CatInput.data).flatten)
          { rc with number_of_variants := rc.number_of_variants
              + (gs.map (fun g => g.context.number_of_variants)).sum }) := by
  induction gs generalizing rc out with
  | nil =>
    obtain ⟨a, b, m, f, fl⟩ := rc
    simp [concatLoop]
  | cons g gs' ih =>
    have hwfg := hwfs g (List.mem_cons_self g gs')
    have hp := catInput_parse g hwfg
    have hmg := hmatch g (List.mem_cons_self g gs')
    simp only [List.map_cons, concatLoop, hp.1, hp.2]
    rw [if_neg (by simp [hmg.1]), if_neg (by simp [hmg.2])]
    rw [catInput_drop_data g hwfg]
    rw [ih { rc with number_of_variants :=
          rc.number_of_variants + g.context.number_of_variants } (out ++ g.data)
      (fun h hm => hwfs h (List.mem_cons_of_mem g hm))
      (fun h hm => hmatch h (List.mem_cons_of_mem g hm))]
    obtain ⟨a, b, m, f, fl⟩ := rc
    simp [List.append_assoc, Nat.add_assoc]

theorem concatLoop_mismatch (pre : List CatInput) (gbad : CatInput)
    (post : List (List Nat)) (rc : Context) (out : List Nat)
    (hwfs : ∀ g ∈ pre, g.WF) (hbadwf : gbad.WF)
    (hmatch : ∀ g ∈ pre, g.context.number_of_samples = rc.number_of_samples
        ∧ g.context.flags = rc.flags)
    (hbad : gbad.context.number_of_samples ≠ rc.number_of_samples
        ∨ gbad.context.flags ≠ rc.flags) :
    ∃ e, concatLoop rc out (pre.map CatInput.file ++ gbad.file :: post)
      = Except.error (e, out ++ (pre.map CatInput.data).flatten) := by
  induction pre generalizing rc out with
  | nil =>
    have hp := catInput_parse gbad hbadwf
    simp only [List.map_nil, List.nil_append, concatLoop, hp.1, hp.2,
      List.flatten_nil, List.append_nil]
    by_cases hs : gbad.context.number_of_samples = rc.number_of_samples
    · have hf : gbad.context.flags ≠ rc.flags := by
        rcases hbad with h | h
        · exact absurd hs h
        · exact h
      refine ⟨CatError.flagMismatch, ?_⟩
      rw [if_neg (by simp [hs]), if_pos hf]
    · exact ⟨CatError.sampleMismatch, by rw [if_pos hs]⟩
  | cons g pre' ih =>
    have hwfg := hwfs g (List.mem_cons_self g pre')
    have hp := catInput_parse g hwfg
    have hmg := hmatch g (List.mem_cons_self g pre')
    simp only [List.map_cons, List.cons_append, concatLoop, hp.1, hp.2]
    rw [if_neg (by simp [hmg.1]), if_neg (by simp [hmg.2])]
    rw [catInput_drop_data g hwfg]
    obtain ⟨e, he⟩ := ih { rc with number_of_variants :=
        rc.number_of_variants + g.context.number_of_variants } (out ++ g.data)
      (fun h hm => hwfs h (List.mem_cons_of_mem g hm))
      (fun h hm => hmatch h (List.mem_cons_of_mem g hm))
      (by
        rcases hbad with h | h
        · exact Or.inl h
        · exact Or.inr h)
    refine ⟨e, he.trans ?_⟩
    simp [List.append_assoc]

/-- C8: concatenation copies the first well-formed file whole; a subsequent
file whose sample count or flag word differs from the first file's makes the
run fail with the output containing exactly what was already written —
nothing of the offending file or its successors, and no header rewrite; when
every subsequent file matches, each contributes exactly the bytes after its
offset word, header and sample block, and the final output is the
concatenation of the inputs' streams with byte 4 onwards rewritten so that
`number_of_variants` is the sum of all inputs' variant counts (the output
equals the first file with bytes 8-11 replaced, followed by the others'
variant streams). -/
theorem concatenate_spec (g0 : CatInput) (gs : List CatInput)
    (hwf0 : g0.WF) (hwfs : ∀ g ∈ gs, g.WF)
    (hmatch : ∀ g ∈ gs, g.context.number_of_samples = g0.context.number_of_samples
        ∧ g.context.flags = g0.context.flags) :
    concatenate (g0.file :: gs.map CatInput.file)
      = Except.ok (g0.file.take 8
          ++ (writeU32 (g0.context.number_of_variants
                + (gs.map (fun g => g.context.number_of_variants)).sum)
          ++ (g0.file.drop 12 ++ (gs.map CatInput.data).flatten)))
    ∧ (∀ (gbad : CatInput) (post : List (List Nat)), gbad.WF →
        (gbad.context.number_of_samples ≠ g0.context.number_of_samples
          ∨ gbad.context.flags ≠ g0.context.flags) →
        ∃ e, concatenate (g0.file :: (gs.map CatInput.file ++ gbad.file :: post))
          = Except.error (e, g0.file ++ (gs.map CatInput.data).flatten)) := by
  have hp0 := catInput_parse g0 hwf0
  have hacc := catInput_file_as_acc g0 hwf0
  have hm : g0.context.magic.length = 4 := hwf0.1.2.2.2.2.1
  constructor
  · unfold concatenate
    simp only [hp0.1, hp0.2]
    rw [hacc]
    rw [concatLoop_all_match gs g0.context g0.file hwfs hmatch]
    congr 1
    have htake4 : (g0.file ++ (gs.map CatInput.data).flatten).take 4
        = writeU32 g0.offset := by
      rw [show g0.file ++ (gs.map CatInput.data).flatten
          = writeU32 g0.offset ++ ((write_header_block g0.context
            ++ (g0.middle ++ g0.data)) ++ (gs.map CatInput.data).flatten)
        by simp [CatInput.file, List.append_assoc]]
      exact take_len_append _ _ _ (writeU32_length g0.offset)
    have hdropP : (g0.file ++ (gs.map CatInput.data).flatten).drop
          (4 + g0.context.header_size)
        = g0.middle ++ (g0.data ++ (gs.map CatInput.data).flatten) := by
      rw [show g0.file ++ (gs.map CatInput.data).flatten
          = (writeU32 g0.offset ++ write_header_block g0.context)
            ++ (g0.middle ++ (g0.data ++ (gs.map CatInput.data).flatten))
        by simp [CatInput.file, List.append_assoc]]
      refine drop_len_append _ _ _ ?_
      simp [List.length_append, writeU32_length,
        write_header_block_length g0.context hm]
    have htake8 : g0.file.take 8
        = writeU32 g0.offset ++ writeU32 g0.context.header_size := by
      rw [show g0.file = (writeU32 g0.offset ++ writeU32 g0.context.header_size)
          ++ (writeU32 g0.context.number_of_variants
            ++ (writeU32 g0.context.number_of_samples ++ (g0.context.magic
            ++ (g0.context.free_data ++ (writeU32 g0.context.flags
            ++ (g0.middle ++ g0.data))))))
        by simp [CatInput.file, write_header_block, List.append_assoc]]
      exact take_len_append _ _ _ (by simp [writeU32_length])
    have hdrop12 : g0.file.drop 12
        = writeU32 g0.context.number_of_samples ++ (g0.context.magic
          ++ (g0.context.free_data ++ (writeU32 g0.context.flags
          ++ (g0.middle ++ g0.data)))) := by
      rw [show g0.file = (writeU32 g0.offset ++ (writeU32 g0.context.header_size
          ++ writeU32 g0.context.number_of_variants))
          ++ (writeU32 g0.context.number_of_samples ++ (g0.context.magic
            ++ (g0.context.free_data ++ (writeU32 g0.context.flags
            ++ (g0.middle ++ g0.data)))))
        by simp [CatInput.file, write_header_block, List.append_assoc]]
      exact drop_len_append _ _ _ (by simp [writeU32_length])
    unfold patchHeaderAt4
    rw [show ({ g0.context with number_of_variants := g0.context.number_of_variants
          + (gs.map (fun g => g.context.number_of_variants)).sum } : Context).header_size
        = g0.context.header_size by simp [Context.header_size]]
    rw [htake4, hdropP, htake8, hdrop12]
    simp [write_header_block, Context.header_size, List.append_assoc]
  · intro gbad post hbadwf hbad
    unfold concatenate
    simp only [hp0.1, hp0.2]
    rw [hacc]
    exact concatLoop_mismatch gs gbad post g0.context g0.file hwfs hbadwf hmatch hbad

/-- Witness for the claim-eight theorem: two matching two-variant files, and
a third file with a different sample count that makes the run halt. -/
theorem concatenate_spec_witness :
    gC8a.WF
    ∧ (∀ g ∈ [gC8b], CatInput.WF g)
    ∧ (∀ g ∈ [gC8b], g.context.number_of_samples = gC8a.context.number_of_samples
        ∧ g.context.flags = gC8a.context.flags)
    ∧ concatenate (gC8a.file :: ([gC8b]).map CatInput.file)
        = Except.ok (gC8a.file.take 8
            ++ (writeU32 (gC8a.context.number_of_variants
                  + (([gC8b]).map (fun g => g.context.number_of_variants)).sum)
            ++ (gC8a.file.drop 12 ++ (([gC8b]).map CatInput.data).flatten)))
    ∧ gC8bad.WF
    ∧ (gC8bad.context.number_of_samples ≠ gC8a.context.number_of_samples
        ∨ gC8bad.context.flags ≠ gC8a.context.flags)
    ∧ ∃ e, concatenate (gC8a.file :: (([gC8b]).map CatInput.file ++ gC8bad.file :: []))
        = Except.error (e, gC8a.file ++ (([gC8b]).map CatInput.data).flatten) :=
  ⟨by decide, by decide, by decide,
    (concatenate_spec gC8a [gC8b] (by decide) (by decide) (by decide)).1,
    by decide, by decide,
    (concatenate_spec gC8a [gC8b] (by decide) (by decide) (by decide)).2 gC8bad []
      (by decide) (by decide)⟩
